import Mathlib

/-!
Verification of `src/generate_data.py` (bladeacer/gen-data).

The development shallowly embeds the pure content of the script:

* CSV rows are association lists `String × String` (Python dicts of strings);
  CPython dict semantics (insertion order, in-place update, deletion) are
  modelled by `dictInsert` / `dictDelete` / `pyDictOf`.
* `str.strip()` is modelled by `pyStrip` (ASCII whitespace, both ends) and
  `int(...)` on strings by `pyInt?` (strip, optional sign, decimal digits;
  CPython additionally accepts unicode digits and `_` separators, which no
  claim depends on).
* A CSV file on disk is a header line plus data lines of cells (`CsvFile`);
  the `csv` module's quoting is transparent at this level.
* Python's stable `list.sort(key=...)` is modelled by the stable insertion
  sort `sortByKey` (any two stable sorts agree extensionally).
* Printing/progress output is ignored; the list of findings accumulated by
  `check_data_integrity` is returned instead of printed.
-/

namespace GenData

/-! ## Python string primitives -/

/-- Drop ASCII whitespace from the front of a character list. -/
def wsDrop (l : List Char) : List Char := l.dropWhile Char.isWhitespace

/-- Strip whitespace from both ends of a character list, as `str.strip()`. -/
def stripChars (l : List Char) : List Char :=
  ((wsDrop l).reverse.dropWhile Char.isWhitespace).reverse

/-- Model of Python `str.strip()` (used by the script as `.strip()`). -/
def pyStrip (s : String) : String := ⟨stripChars s.data⟩

/-- Stripping from the back only (`reverse → dropWhile → reverse`). -/
def wsDropBack (l : List Char) : List Char :=
  (l.reverse.dropWhile Char.isWhitespace).reverse

/-- Value of a decimal digit list, most significant first. -/
def digitsVal (l : List Char) : ℕ :=
  l.foldl (fun acc c => acc * 10 + (c.toNat - 48)) 0

/-- Model of Python `int(s)` for a string `s`: strip whitespace, optional
sign, then decimal digits; anything else raises `ValueError` (`none`). -/
def pyInt? (s : String) : Option ℤ :=
  match (pyStrip s).data with
  | [] => none
  | c :: cs =>
    if c = '-' then
      if cs ≠ [] ∧ cs.all Char.isDigit then some (-(digitsVal cs : ℤ)) else none
    else if c = '+' then
      if cs ≠ [] ∧ cs.all Char.isDigit then some (digitsVal cs : ℤ) else none
    else
      if (c :: cs).all Char.isDigit then some (digitsVal (c :: cs) : ℤ) else none

/-! ## CPython dict semantics over association lists -/

/-- Keys of an association list. -/
def dictKeys (m : List (α × β)) : List α := m.map Prod.fst

/-- CPython `d[k] = v`: update in place if the key exists (keeping its
position), otherwise append at the end. -/
def dictInsert [BEq α] (k : α) (v : β) (m : List (α × β)) : List (α × β) :=
  if (dictKeys m).contains k then
    m.map (fun kv => if kv.1 == k then (k, v) else kv)
  else m ++ [(k, v)]

/-- CPython `del d[k]`: remove the entry, keeping the order of the rest. -/
def dictDelete [BEq α] (k : α) (m : List (α × β)) : List (α × β) :=
  m.filter (fun kv => !(kv.1 == k))

/-- Build a dict from a list of key/value pairs, later pairs winning
(Python dict comprehension / repeated assignment). -/
def pyDictOf [BEq α] (l : List (α × β)) : List (α × β) :=
  l.foldl (fun m kv => dictInsert kv.1 kv.2 m) []

/-! ## Stable sort by an integer key (Python `list.sort(key=...)`) -/

/-- Insert `x` after every element with a strictly smaller key and before
every element, seen later, with an equal key. -/
def insertByKey (key : α → ℤ) (x : α) : List α → List α
  | [] => [x]
  | y :: ys => if key y < key x then y :: insertByKey key x ys else x :: y :: ys

/-- Stable insertion sort by an integer key; extensionally equal to
CPython's stable `list.sort(key=...)`. -/
def sortByKey (key : α → ℤ) : List α → List α
  | [] => []
  | x :: xs => insertByKey key x (sortByKey key xs)

/-! ## Data model -/

/-- A CSV record as the Python code sees it: a dict from field name to
string value, modelled as an association list in CPython insertion
order. -/
abbrev Row := List (String × String)

/-- A CSV file on disk: the header line of field names followed by the
data lines, one list of cells per record.  The `csv` module's quoting
and escaping are transparent at this level. -/
structure CsvFile where
  header : List String
  lines : List (List String)
deriving DecidableEq

/-- Field names of `credit_scores.csv` (`USER_FIELDS`). -/
def USER_FIELDS : List String := ["ID", "Name", "Email", "Credit Score"]

/-- Field names of `account_status.csv` (`ACCOUNT_FIELDS`). -/
def ACCOUNT_FIELDS : List String := ["ID", "Name", "Email", "Account Status"]

def USER_FILE : String := "credit_scores.csv"

def ACCOUNT_FILE : String := "account_status.csv"

def CLEAN_USER_FILE : String := "credit_scores_clean.csv"

def CLEAN_ACCOUNT_FILE : String := "account_status_clean.csv"

def CLEAN_USER_FIELDS : List String := ["Name", "Credit Score"]

def CLEAN_ACCOUNT_FIELDS : List String := ["Name", "Account Status"]

/-! ## Dataset Reader (`read_all_data`) -/

/-- Cleanup applied to each parsed row by `read_all_data`:
`{k.strip(): v.strip() for k, v in row.items() if k is not None and k.strip() != ''}`.
`csv.DictReader` pairs the header with the line's cells; extra cells sit
under the `None` rest key, which the comprehension drops. -/
def cleanupRow (header : List String) (cells : List String) : Row :=
  pyDictOf (((header.zip cells).map
    (fun kv => (pyStrip kv.1, pyStrip kv.2))).filter (fun kv => !(kv.1 == "")))

/-- An invalid row report `{'file': ..., 'row_data': ..., 'reason': ...}`. -/
structure InvalidRow where
  file : String
  row_data : Row
  reason : String
deriving DecidableEq

/-- Result triple of `read_all_data`:
`(existing_rows, existing_ids, invalid_rows)`. -/
structure ReadResult where
  rows : List Row
  ids : Finset ℤ
  invalids : List InvalidRow
deriving DecidableEq

/-- The row loop of `read_all_data`.  A data line shorter than the header
makes `csv.DictReader` fill the missing fields with `None`; the cleanup
comprehension then raises `AttributeError` (`None.strip()`), which escapes
to the file-level `except`, ending the read but keeping everything already
accumulated.  A row is valid iff `int(row.get('ID', ''))` succeeds; the
reason recorded otherwise is `"Missing ID"` or `"Non-integer ID"`. -/
def readLines (fname : String) (header : List String) :
    List (List String) → ReadResult
  | [] => ⟨[], ∅, []⟩
  | cells :: rest =>
    if cells.length < header.length then ⟨[], ∅, []⟩
    else
      let row := cleanupRow header cells
      let res := readLines fname header rest
      match pyInt? ((List.lookup "ID" row).getD "") with
      | some i => ⟨row :: res.rows, insert i res.ids, res.invalids⟩
      | none =>
        ⟨res.rows, res.ids,
         ⟨fname, row,
          if (dictKeys row).contains "ID" then "Non-integer ID" else "Missing ID"⟩
           :: res.invalids⟩

/-- Model of `read_all_data`: a missing file yields empty results; else
the first line is the header and the remaining lines are parsed row by
row.  (The function's `cleaned_header` local is computed and discarded.) -/
def read_all_data (fname : String) (file : Option CsvFile) : ReadResult :=
  match file with
  | none => ⟨[], ∅, []⟩
  | some F => readLines fname F.header F.lines

/-! ## Identifier Allocator (`find_new_ids`) -/

/-- Gap scan of `find_new_ids`:
`[i for i in range(1, max_id) if i not in combined_existing_ids]`. -/
def gapList (ids : Finset ℤ) (max_id : ℤ) : List ℤ :=
  ((List.range (max_id - 1).toNat).map (fun (i : ℕ) => (i : ℤ) + 1)).filter
    (fun i => !(decide (i ∈ ids)))

/-- Model of `find_new_ids`: with no existing ids return `1..n`; otherwise
take up to `n` gaps below the maximum, fill the remainder with the
sequential run above it, and sort. -/
def find_new_ids (num_records : ℕ) (combined_existing_ids : Finset ℤ) : List ℤ :=
  if h : combined_existing_ids = ∅ then
    (List.range num_records).map (fun (i : ℕ) => (i : ℤ) + 1)
  else
    let max_id := combined_existing_ids.max' (Finset.nonempty_iff_ne_empty.mpr h)
    let gap_ids := gapList combined_existing_ids max_id
    let firstTake := gap_ids.take num_records
    let new_ids :=
      if firstTake.length < num_records then
        firstTake ++ (List.range (num_records - firstTake.length)).map
          (fun (j : ℕ) => max_id + 1 + (j : ℤ))
      else firstTake
    sortByKey (fun x => x) new_ids

/-! ## Integrity Validator (`check_data_integrity`) -/

/-- One reported inconsistency
`{'ID': ..., 'Field': ..., 'User Value': ..., 'Account Value': ..., 'Issue': ...}`. -/
structure Finding where
  id : ℤ
  field : String
  userValue : String
  accountValue : String
  issue : String
deriving DecidableEq

/-- Entries of `user_data_map`: `ID ↦ (Name, Email)`. -/
abbrev UserMap := List (ℤ × (String × String))

/-- One user row of step 1 of `check_data_integrity`: if
`int(row['ID'])` succeeds and both `row['Name']` and `row['Email']` are
present, record them under the id; any `ValueError`/`KeyError` skips the
row. -/
def userMapStep (m : UserMap) (row : Row) : UserMap :=
  match (List.lookup "ID" row).bind pyInt?,
        List.lookup "Name" row, List.lookup "Email" row with
  | some i, some n, some e => dictInsert i (n, e) m
  | _, _, _ => m

/-- Step 1 of `check_data_integrity`: map each user row's integer `ID` to
its `Name`/`Email`; a duplicate `ID` overwrites in place, so the last row
wins. -/
def buildUserMap (user_rows : List Row) : UserMap :=
  user_rows.foldl userMapStep []

/-- Issue text `f'Missing match for ID {record_id} in other file.'`. -/
def missingIssue (i : ℤ) : String :=
  "Missing match for ID " ++ toString i ++ " in other file."

/-- Step 2 of `check_data_integrity`: walk the account rows; a row whose
`ID`, `Name` or `Email` access fails is skipped before anything else; a
row whose id sits in the map emits a `Name Mismatch` and/or an
`Email Mismatch` finding for differing shared fields and then deletes the
id from the map.  Returns the findings in emission order and the final
map of never-matched user ids. -/
def processAccounts : UserMap → List Row → List Finding × UserMap
  | m, [] => ([], m)
  | m, row :: rest =>
    match (List.lookup "ID" row).bind pyInt?,
          List.lookup "Name" row, List.lookup "Email" row with
    | some i, some an, some ae =>
      match List.lookup i m with
      | some d =>
        let f1 : List Finding :=
          if d.1 ≠ an then [⟨i, "Name", d.1, an, "Name Mismatch"⟩] else []
        let f2 : List Finding :=
          if d.2 ≠ ae then [⟨i, "Email", d.2, ae, "Email Mismatch"⟩] else []
        let res := processAccounts (dictDelete i m) rest
        (f1 ++ f2 ++ res.1, res.2)
      | none => processAccounts m rest
    | _, _, _ => processAccounts m rest

/-- Model of `check_data_integrity`: the list of inconsistencies the
function accumulates (the script prints them; we return them): the
mismatch findings in account-row order, then one missing-counterpart
finding per user id never matched, in `user_data_map` insertion order. -/
def check_data_integrity (user_rows account_rows : List Row) : List Finding :=
  let res := processAccounts (buildUserMap user_rows) account_rows
  res.1 ++ res.2.map (fun kv => ⟨kv.1, "ID", kv.2.1, "N/A", missingIssue kv.1⟩)

/-- Identifiers the primary dataset carries: what `int(row['ID'])` yields
on the user rows. -/
def primaryIds (user_rows : List Row) : List ℤ :=
  user_rows.filterMap (fun row => (List.lookup "ID" row).bind pyInt?)

/-! ## Rewrite Engine (`rewrite_csv_task`, `write_clean_csv`) -/

/-- Row serialization of `csv.DictWriter.writerow`: one cell per declared
field, a missing field yielding the default `restval` `''`. -/
def serializeRow (fieldnames : List String) (r : Row) : List String :=
  fieldnames.map (fun f => (List.lookup f r).getD "")

/-- Sort key `int(row['ID'])`, made total by a default; meaningful only
where every row is known to satisfy `canSortRow`. -/
def rowKey (r : Row) : ℤ := ((List.lookup "ID" r).bind pyInt?).getD 0

/-- Rows on which `int(row['ID'])` raises no exception. -/
def canSortRow (r : Row) : Bool := ((List.lookup "ID" r).bind pyInt?).isSome

/-- Rows whose keys `csv.DictWriter` under `extrasaction='raise'` accepts. -/
def rowFits (fieldnames : List String) (r : Row) : Bool :=
  r.all (fun kv => fieldnames.contains kv.1)

/-- Model of `rewrite_csv_task`: sort the rows by `int(row['ID'])` with
Python's stable sort, then open the target with mode `'w'` — truncating
whatever `prev` held — and write the header line followed by the sorted
records.  `none` models a raised exception: a missing or non-integer `ID`
(the sort key) or a row key outside `fieldnames` (`extrasaction='raise'`);
the pool manager catches it and the target is not (fully) written. -/
def rewrite_csv_task (_prev : Option CsvFile) (fieldnames : List String)
    (all_rows : List Row) : Option CsvFile :=
  if all_rows.all canSortRow then
    if all_rows.all (rowFits fieldnames) then
      some ⟨fieldnames, (sortByKey rowKey all_rows).map (serializeRow fieldnames)⟩
    else none
  else none

/-- Python `os.path.splitext` for the plain file names used here: split
at the last dot, the extension keeping the dot. -/
def splitext (s : String) : String × String :=
  let revAfter := s.data.reverse.takeWhile (fun c => !(c == '.'))
  if revAfter.length = s.data.length then (s, "")
  else (⟨(s.data.reverse.drop (revAfter.length + 1)).reverse⟩,
        ⟨'.' :: revAfter.reverse⟩)

/-- Chunk file name `f"{filename}_part_{file_index}{extension}"`. -/
def partName (base : String) (idx : ℕ) : String :=
  (splitext base).1 ++ "_part_" ++ toString idx ++ (splitext base).2

/-- Model of `write_clean_csv`: slice `all_rows` into contiguous chunks of
100 (`for i in range(0, total_records, CHUNK_SIZE)` with the local
`CHUNK_SIZE = 100`), writing 0-based chunk `j` to the 1-based part target
`partName base (j+1)`, with exactly the `clean_fieldnames` columns
(`extrasaction='ignore'` silently drops every other field). -/
def write_clean_csv (base_filename : String) (clean_fieldnames : List String)
    (all_rows : List Row) : List (String × CsvFile) :=
  (List.range ((all_rows.length + 99) / 100)).map (fun j =>
    (partName base_filename (j + 1),
     ⟨clean_fieldnames,
      ((all_rows.drop (j * 100)).take 100).map (serializeRow clean_fieldnames)⟩))

/-- The contiguous 100-row slices `write_clean_csv` takes of its input
(the rows behind the serialized parts). -/
def pyChunks100 (all_rows : List Row) : List (List Row) :=
  (List.range ((all_rows.length + 99) / 100)).map (fun j =>
    (all_rows.drop (j * 100)).take 100)

/-- Shape a row takes after a written file is read back: every declared
field present, in header order, holding the stripped cell value. -/
def normRow (fieldnames : List String) (r : Row) : Row :=
  fieldnames.map (fun f => (f, pyStrip ((List.lookup f r).getD "")))

/-- Sanity of a header as the script's own field lists satisfy it:
distinct names, already stripped, none empty. -/
abbrev GoodFields (fieldnames : List String) : Prop :=
  fieldnames.Nodup ∧ ∀ f ∈ fieldnames, pyStrip f = f ∧ f ≠ ""

/-- Identifier set of a row list under the `int(row['ID'])` key (equals
the ids the reader would collect when every row has a parseable `ID`). -/
def idsOf (rows : List Row) : Finset ℤ := (rows.map rowKey).toFinset

/-! ## Concrete inputs used by closed instances -/

/-- Rows exercising the rewrite: two rows share id 7, one has id 1. -/
def rewriteWitnessRows : List Row :=
  [[("ID", "7"), ("Name", "X")], [("ID", "7"), ("Name", "Y")],
   [("ID", "1"), ("Name", "A")]]

/-- The file `rewrite_csv_task` produces from `rewriteWitnessRows`. -/
def rewriteWitnessFile : CsvFile :=
  ⟨USER_FIELDS, [["1", "A", "", ""], ["7", "X", "", ""], ["7", "Y", "", ""]]⟩

/-- A 250-row input that is not sorted by id: ids 2, 1, 3, 4, …, 250. -/
def chunkCexRows : List Row :=
  [("ID", "2")] :: [("ID", "1")] ::
    (List.range 248).map (fun i => [("ID", toString (i + 3))])

/-- A sorted 250-row input (all ids equal, hence trivially nondecreasing). -/
def chunkSortedRows : List Row := List.replicate 250 [("ID", "1")]

/-- A row whose `Name` value carries leading whitespace. -/
def roundtripCexRows : List Row :=
  [[("ID", "1"), ("Name", " Ann"), ("Email", "a@b.c"), ("Credit Score", "700")]]

/-- The file the rewrite produces from `roundtripCexRows`. -/
def roundtripCexFile : CsvFile :=
  ⟨USER_FIELDS, [["1", " Ann", "a@b.c", "700"]]⟩

/-- Two complete, whitespace-free user rows in unsorted id order. -/
def roundtripWitnessRows : List Row :=
  [[("ID", "2"), ("Name", "B"), ("Email", "b@x.com"), ("Credit Score", "650")],
   [("ID", "1"), ("Name", "A"), ("Email", "a@x.com"), ("Credit Score", "700")]]

/-- The file the rewrite produces from `roundtripWitnessRows`. -/
def roundtripWitnessFile : CsvFile :=
  ⟨USER_FIELDS, [["1", "A", "a@x.com", "700"], ["2", "B", "b@x.com", "650"]]⟩

/-! ## Record synthesizer boundary and the full pipeline -/

/-- Values the external record synthesizer (faker/random) supplies for one
identifier; the script copies `Name` and `Email` verbatim into both rows.
Numeric values are modelled by the string the `csv` module would write. -/
structure SynthData where
  name : String
  email : String
  score : String
  status : String

/-- Model of `generate_new_rows`: one user row and one account row per
pre-determined id, sharing `ID`, `Name` and `Email`. -/
def generate_new_rows (new_ids : List ℤ) (synth : ℤ → SynthData) :
    List Row × List Row :=
  (new_ids.map (fun i =>
     [("ID", toString i), ("Name", (synth i).name), ("Email", (synth i).email),
      ("Credit Score", (synth i).score)]),
   new_ids.map (fun i =>
     [("ID", toString i), ("Name", (synth i).name), ("Email", (synth i).email),
      ("Account Status", (synth i).status)]))

/-- Everything one invocation produces. -/
structure PipelineOut where
  userFile : CsvFile
  accountFile : CsvFile
  userParts : List (String × CsvFile)
  accountParts : List (String × CsvFile)
  findings : List Finding
  newIds : List ℤ
deriving DecidableEq

/-- Model of `generate_and_append_datasets`: read both files, run the
integrity check on the existing valid rows, allocate ids against the
union of both id sets, synthesize the new row pairs, rewrite both files
sorted (two parallel tasks in the script; they share no state, so their
composition is order-independent), and emit the chunked clean exports
from the in-memory combined row lists — which stay unsorted, because each
worker sorts a pickled copy.  `none` models a failed rewrite task. -/
def generate_and_append_datasets (userF accountF : Option CsvFile)
    (num_records : ℕ) (synth : ℤ → SynthData) : Option PipelineOut :=
  let ru := read_all_data USER_FILE userF
  let ra := read_all_data ACCOUNT_FILE accountF
  let findings := check_data_integrity ru.rows ra.rows
  let new_ids := find_new_ids num_records (ru.ids ∪ ra.ids)
  let newRows := generate_new_rows new_ids synth
  let all_user_rows := ru.rows ++ newRows.1
  let all_account_rows := ra.rows ++ newRows.2
  match rewrite_csv_task userF USER_FIELDS all_user_rows,
        rewrite_csv_task accountF ACCOUNT_FIELDS all_account_rows with
  | some fu, some fa =>
    some ⟨fu, fa,
      write_clean_csv CLEAN_USER_FILE CLEAN_USER_FIELDS all_user_rows,
      write_clean_csv CLEAN_ACCOUNT_FILE CLEAN_ACCOUNT_FIELDS all_account_rows,
      findings, new_ids⟩
  | _, _ => none

/-- Trivial synthesizer oracle (never consulted when zero records are
requested). -/
def emptySynth : ℤ → SynthData := fun _ => ⟨"", "", "", ""⟩

/-- Output of a pipeline run on absent input files with zero new records. -/
def emptyRunOut : PipelineOut :=
  ⟨⟨USER_FIELDS, []⟩, ⟨ACCOUNT_FIELDS, []⟩, [], [], [], []⟩

/-! ## Theorems: Python string primitives -/

theorem dropWhile_dropWhile (p : α → Bool) (l : List α) :
    (l.dropWhile p).dropWhile p = l.dropWhile p := by
  induction l with
  | nil => rfl
  | cons x xs ih => by_cases h : p x <;> simp [List.dropWhile, h, ih]

theorem dropWhile_append_ite (p : α → Bool) (l₁ l₂ : List α) :
    (l₁ ++ l₂).dropWhile p =
      if (l₁.dropWhile p).isEmpty then l₂.dropWhile p else l₁.dropWhile p ++ l₂ := by
  induction l₁ with
  | nil => simp
  | cons x xs ih => by_cases h : p x <;> simp [List.dropWhile, h, ih]

theorem dropWhile_head_false (p : α → Bool) :
    ∀ (l : List α) {x : α} {xs : List α}, l.dropWhile p = x :: xs → p x = false := by
  intro l
  induction l with
  | nil => intro x xs h; simp [List.dropWhile] at h
  | cons y ys ih =>
    intro x xs h
    by_cases hy : p y
    · simp only [List.dropWhile, hy] at h
      exact ih h
    · simp only [Bool.not_eq_true] at hy
      simp only [List.dropWhile, hy] at h
      injection h with h1 h2
      rw [← h1]
      exact hy

theorem dropWhile_cons_of_false {p : α → Bool} {x : α} (xs : List α) (h : p x = false) :
    (x :: xs).dropWhile p = x :: xs := by
  simp [List.dropWhile, h]

theorem wsDropBack_wsDropBack (l : List Char) :
    wsDropBack (wsDropBack l) = wsDropBack l := by
  unfold wsDropBack
  rw [List.reverse_reverse, dropWhile_dropWhile]

theorem wsDrop_wsDropBack_cons {x : Char} (xs : List Char)
    (hx : Char.isWhitespace x = false) :
    wsDrop (wsDropBack (x :: xs)) = wsDropBack (x :: xs) := by
  have hrw : (x :: xs).reverse.dropWhile Char.isWhitespace =
      if (xs.reverse.dropWhile Char.isWhitespace).isEmpty
      then [x] else xs.reverse.dropWhile Char.isWhitespace ++ [x] := by
    rw [List.reverse_cons, dropWhile_append_ite]
    by_cases he : (xs.reverse.dropWhile Char.isWhitespace).isEmpty
    · rw [if_pos he, if_pos he]
      exact dropWhile_cons_of_false _ hx
    · rw [if_neg he, if_neg he]
  show wsDrop ((x :: xs).reverse.dropWhile Char.isWhitespace).reverse =
    ((x :: xs).reverse.dropWhile Char.isWhitespace).reverse
  rw [hrw]
  by_cases he : (xs.reverse.dropWhile Char.isWhitespace).isEmpty
  · rw [if_pos he]
    exact dropWhile_cons_of_false _ hx
  · rw [if_neg he]
    simp only [List.reverse_append, List.reverse_singleton, List.singleton_append]
    exact dropWhile_cons_of_false _ hx

theorem wsDrop_wsDropBack_wsDrop (l : List Char) :
    wsDrop (wsDropBack (wsDrop l)) = wsDropBack (wsDrop l) := by
  rcases hm : wsDrop l with _ | ⟨x, xs⟩
  · rfl
  · exact wsDrop_wsDropBack_cons xs (dropWhile_head_false _ l hm)

theorem stripChars_stripChars (l : List Char) :
    stripChars (stripChars l) = stripChars l := by
  show wsDropBack (wsDrop (wsDropBack (wsDrop l))) = wsDropBack (wsDrop l)
  rw [wsDrop_wsDropBack_wsDrop, wsDropBack_wsDropBack]

theorem pyStrip_pyStrip (s : String) : pyStrip (pyStrip s) = pyStrip s := by
  show String.mk (stripChars (stripChars s.data)) = String.mk (stripChars s.data)
  rw [stripChars_stripChars]

theorem pyInt?_pyStrip (s : String) : pyInt? (pyStrip s) = pyInt? s := by
  unfold pyInt?
  rw [pyStrip_pyStrip]

/-! ## Theorems: dict semantics -/

theorem mem_dictInsert [BEq α] {k : α} {v : β} {m : List (α × β)} {kv : α × β}
    (h : kv ∈ dictInsert k v m) : kv = (k, v) ∨ kv ∈ m := by
  unfold dictInsert at h
  by_cases hc : (dictKeys m).contains k
  · simp only [hc, if_true] at h
    rcases List.mem_map.mp h with ⟨kv₀, hkv₀, heq⟩
    by_cases hb : kv₀.1 == k
    · left; rw [← heq]; simp [hb]
    · right; rw [← heq]; simpa [hb] using hkv₀
  · simp only [hc, if_false] at h
    rcases List.mem_append.mp h with h | h
    · right; exact h
    · left; simpa using h

theorem foldl_dictInsert_eq_append [BEq α] [LawfulBEq α] :
    ∀ (l m : List (α × β)), (dictKeys l).Nodup →
      (∀ kv ∈ l, kv.1 ∉ dictKeys m) →
      l.foldl (fun m kv => dictInsert kv.1 kv.2 m) m = m ++ l := by
  intro l
  induction l with
  | nil => intro m _ _; simp
  | cons kv rest ih =>
    intro m hnd hdisj
    have hk : kv.1 ∉ dictKeys m := hdisj kv (List.mem_cons_self kv rest)
    have hc : (dictKeys m).contains kv.1 = false := by
      rw [List.contains_eq_any_beq]
      simp only [List.any_eq_false]
      intro a ha hbeq
      refine hk ?_
      rw [eq_of_beq hbeq]
      exact ha
    have hins : dictInsert kv.1 kv.2 m = m ++ [kv] := by
      unfold dictInsert
      rw [hc]
      simp
    have hnd0 : kv.1 ∉ dictKeys rest ∧ (dictKeys rest).Nodup :=
      List.nodup_cons.mp hnd
    have hnd' : (dictKeys rest).Nodup := hnd0.2
    have hhead : kv.1 ∉ dictKeys rest := hnd0.1
    have hdisj' : ∀ kv' ∈ rest, kv'.1 ∉ dictKeys (m ++ [kv]) := by
      intro kv' hkv'
      simp only [dictKeys, List.map_append, List.mem_append]
      rintro (h | h)
      · exact hdisj kv' (List.mem_cons_of_mem _ hkv') h
      · simp only [List.map_cons, List.map_nil, List.mem_singleton] at h
        exact hhead (by rw [← h]; exact List.mem_map_of_mem Prod.fst hkv')
    calc (kv :: rest).foldl (fun m kv => dictInsert kv.1 kv.2 m) m
        = rest.foldl (fun m kv => dictInsert kv.1 kv.2 m) (m ++ [kv]) := by
          simp [List.foldl_cons, hins]
      _ = (m ++ [kv]) ++ rest := ih (m ++ [kv]) hnd' hdisj'
      _ = m ++ (kv :: rest) := by simp

/-- A pair list with distinct keys is already a dict. -/
theorem pyDictOf_eq_self [BEq α] [LawfulBEq α] {l : List (α × β)}
    (h : (dictKeys l).Nodup) : pyDictOf l = l := by
  have := foldl_dictInsert_eq_append l [] h (by intro kv _; simp [dictKeys])
  simpa [pyDictOf] using this

theorem mem_pyDictOf [BEq α] {l : List (α × β)} {kv : α × β}
    (h : kv ∈ pyDictOf l) : kv ∈ l := by
  suffices haux : ∀ (l m : List (α × β)),
      kv ∈ l.foldl (fun m kv => dictInsert kv.1 kv.2 m) m → kv ∈ m ∨ kv ∈ l by
    rcases haux l [] h with h' | h'
    · simp at h'
    · exact h'
  intro l
  induction l with
  | nil => intro m h; simp at h; exact Or.inl h
  | cons kv₀ rest ih =>
    intro m h
    simp only [List.foldl_cons] at h
    rcases ih (dictInsert kv₀.1 kv₀.2 m) h with h' | h'
    · rcases mem_dictInsert h' with h'' | h''
      · right; rw [h'']; exact List.mem_cons_self _ _
      · left; exact h''
    · right; exact List.mem_cons_of_mem _ h'

theorem lookup_isSome_iff [BEq α] [LawfulBEq α] (k : α) (m : List (α × β)) :
    (List.lookup k m).isSome ↔ k ∈ dictKeys m := by
  induction m with
  | nil => simp [List.lookup, dictKeys]
  | cons kv rest ih =>
    by_cases hb : k == kv.1
    · simp [List.lookup, hb, dictKeys, eq_of_beq hb]
    · have hne : k ≠ kv.1 := fun h => hb (by simp [h])
      simp [List.lookup, hb, dictKeys, hne, ih, dictKeys]

theorem mem_dictKeys_dictInsert [BEq α] [LawfulBEq α] {k : α} {v : β}
    {m : List (α × β)} {a : α}
    (h : a ∈ dictKeys (dictInsert k v m)) : a = k ∨ a ∈ dictKeys m := by
  rcases List.mem_map.mp h with ⟨kv, hkv, hkv1⟩
  rcases mem_dictInsert hkv with h' | h'
  · left; rw [← hkv1, h']
  · right; exact List.mem_map.mpr ⟨kv, h', hkv1⟩

theorem dictDelete_subset [BEq α] {j : α} {m : List (α × β)} {kv : α × β}
    (h : kv ∈ dictDelete j m) : kv ∈ m :=
  (List.mem_filter.mp h).1

theorem dictKeys_dictDelete_subset [BEq α] {j : α} {m : List (α × β)} {a : α}
    (h : a ∈ dictKeys (dictDelete j m)) : a ∈ dictKeys m := by
  rcases List.mem_map.mp h with ⟨kv, hkv, hkv1⟩
  exact List.mem_map.mpr ⟨kv, dictDelete_subset hkv, hkv1⟩

theorem mem_dictKeys_dictDelete [BEq α] [LawfulBEq α] {m : List (α × β)} {i j : α}
    (hi : i ∈ dictKeys m) (hij : i ≠ j) : i ∈ dictKeys (dictDelete j m) := by
  rcases List.mem_map.mp hi with ⟨kv, hkv, hkv1⟩
  refine List.mem_map.mpr ⟨kv, ?_, hkv1⟩
  refine List.mem_filter.mpr ⟨hkv, ?_⟩
  simp only [Bool.not_eq_true', beq_eq_false_iff_ne]
  rw [hkv1]
  exact hij

/-! ## Theorems: stable sort -/

theorem insertByKey_perm (key : α → ℤ) (x : α) (l : List α) :
    List.Perm (insertByKey key x l) (x :: l) := by
  induction l with
  | nil => rfl
  | cons y ys ih =>
    by_cases h : key y < key x
    · simp only [insertByKey, h, if_true]
      exact ((ih.cons y).trans (List.Perm.swap x y ys))
    · simp [insertByKey, h]

theorem sortByKey_perm (key : α → ℤ) (l : List α) :
    List.Perm (sortByKey key l) l := by
  induction l with
  | nil => rfl
  | cons x xs ih =>
    exact (insertByKey_perm key x (sortByKey key xs)).trans (ih.cons x)

theorem mem_insertByKey {key : α → ℤ} {x z : α} {l : List α}
    (h : z ∈ insertByKey key x l) : z = x ∨ z ∈ l :=
  by simpa using (insertByKey_perm key x l).mem_iff.mp h

theorem insertByKey_pairwise {key : α → ℤ} {x : α} {l : List α}
    (h : l.Pairwise (fun a b => key a ≤ key b)) :
    (insertByKey key x l).Pairwise (fun a b => key a ≤ key b) := by
  induction l with
  | nil => simp [insertByKey]
  | cons y ys ih =>
    rcases List.pairwise_cons.mp h with ⟨hy, hys⟩
    by_cases hlt : key y < key x
    · simp only [insertByKey, hlt, if_true]
      refine List.pairwise_cons.mpr ⟨?_, ih hys⟩
      intro z hz
      rcases mem_insertByKey hz with h' | h'
      · rw [h']; exact le_of_lt hlt
      · exact hy z h'
    · simp only [insertByKey, hlt, if_false]
      refine List.pairwise_cons.mpr ⟨?_, h⟩
      intro z hz
      rcases List.mem_cons.mp hz with h' | h'
      · rw [h']; exact not_lt.mp hlt
      · exact le_trans (not_lt.mp hlt) (hy z h')

theorem sortByKey_pairwise (key : α → ℤ) (l : List α) :
    (sortByKey key l).Pairwise (fun a b => key a ≤ key b) := by
  induction l with
  | nil => simp [sortByKey]
  | cons x xs ih => exact insertByKey_pairwise ih

theorem sortByKey_of_pairwise {key : α → ℤ} {l : List α}
    (h : l.Pairwise (fun a b => key a ≤ key b)) : sortByKey key l = l := by
  induction l with
  | nil => rfl
  | cons x xs ih =>
    rcases List.pairwise_cons.mp h with ⟨hx, hxs⟩
    show insertByKey key x (sortByKey key xs) = x :: xs
    rw [ih hxs]
    cases xs with
    | nil => rfl
    | cons y ys =>
      have : ¬ key y < key x := not_lt.mpr (hx y (List.mem_cons_self y ys))
      simp [insertByKey, this]

theorem filter_insertByKey (key : α → ℤ) (x : α) (l : List α) (k : ℤ) :
    (insertByKey key x l).filter (fun a => key a == k) =
      (if key x == k then [x] else []) ++ l.filter (fun a => key a == k) := by
  induction l with
  | nil => by_cases h : key x == k <;> simp [insertByKey, List.filter, h]
  | cons y ys ih =>
    by_cases hlt : key y < key x
    · simp only [insertByKey, hlt, if_true]
      by_cases hy : key y == k
      · have hx : (key x == k) = false := by
          apply beq_false_of_ne
          intro hxe
          exact absurd (by rw [hxe, eq_of_beq hy] at hlt; exact hlt) (lt_irrefl k)
        simp only [List.filter_cons, hy, if_true, ih, hx]
        simp
      · simp only [List.filter_cons, hy, ih]
        simp [hy]
    · simp only [insertByKey, hlt, if_false]
      by_cases hx : key x == k <;> simp [List.filter_cons, hx]

/-- Stability of `sortByKey`: the elements with any fixed key value appear
in the output in their input order. -/
theorem sortByKey_stable (key : α → ℤ) (l : List α) (k : ℤ) :
    (sortByKey key l).filter (fun a => key a == k) =
      l.filter (fun a => key a == k) := by
  induction l with
  | nil => rfl
  | cons x xs ih =>
    show (insertByKey key x (sortByKey key xs)).filter (fun a => key a == k) = _
    rw [filter_insertByKey, ih]
    by_cases hx : key x == k <;> simp [List.filter_cons, hx]

theorem length_sortByKey (key : α → ℤ) (l : List α) :
    (sortByKey key l).length = l.length :=
  (sortByKey_perm key l).length_eq

theorem mem_sortByKey_iff (key : α → ℤ) (l : List α) (x : α) :
    x ∈ sortByKey key l ↔ x ∈ l :=
  (sortByKey_perm key l).mem_iff

/-! ## Theorems: allocator (claims C1, C2) -/

theorem mem_gapList {S : Finset ℤ} {m x : ℤ} :
    x ∈ gapList S m ↔ 1 ≤ x ∧ x < m ∧ x ∉ S := by
  unfold gapList
  simp only [List.mem_filter, List.mem_map, List.mem_range,
    Bool.not_eq_true', decide_eq_false_iff_not]
  constructor
  · rintro ⟨⟨i, hi, rfl⟩, hx⟩
    exact ⟨by omega, by omega, hx⟩
  · rintro ⟨h1, h2, hx⟩
    exact ⟨⟨(x - 1).toNat, by omega, by omega⟩, hx⟩

theorem gapList_pairwise (S : Finset ℤ) (m : ℤ) :
    (gapList S m).Pairwise (· < ·) := by
  unfold gapList
  refine List.Pairwise.filter _ ?_
  refine List.Pairwise.map _ (fun a b h => ?_) (List.pairwise_lt_range _)
  omega

theorem take_gap_append_run_pairwise (S : Finset ℤ) (m : ℤ) (n k : ℕ) :
    ((gapList S m).take n ++
      (List.range k).map (fun (j : ℕ) => m + 1 + (j : ℤ))).Pairwise (· < ·) := by
  rw [List.pairwise_append]
  refine ⟨List.Pairwise.sublist (List.take_sublist _ _) (gapList_pairwise S m),
    List.Pairwise.map _ (fun a b h => by omega) (List.pairwise_lt_range _), ?_⟩
  intro a ha b hb
  have ha' : a < m := (mem_gapList.mp (List.take_subset _ _ ha)).2.1
  rcases List.mem_map.mp hb with ⟨j, hj, rfl⟩
  omega

theorem find_new_ids_eq_of_max {n : ℕ} {S : Finset ℤ} {m : ℤ}
    (hm : S.max = (m : WithBot ℤ)) :
    find_new_ids n S =
      (gapList S m).take n ++
        (List.range (n - ((gapList S m).take n).length)).map
          (fun (j : ℕ) => m + 1 + (j : ℤ)) := by
  have hne : S.Nonempty := by
    rcases Finset.eq_empty_or_nonempty S with h | h
    · rw [h, Finset.max_empty] at hm
      exact absurd hm.symm (WithBot.coe_ne_bot)
    · exact h
  have hmax' : S.max' hne = m := by
    have h := Finset.coe_max' hne
    rw [hm] at h
    exact_mod_cast h
  unfold find_new_ids
  rw [dif_neg (Finset.nonempty_iff_ne_empty.mp hne)]
  show sortByKey (fun x => x)
      (if ((gapList S (S.max' hne)).take n).length < n then
        (gapList S (S.max' hne)).take n ++
          (List.range (n - ((gapList S (S.max' hne)).take n).length)).map
            (fun (j : ℕ) => S.max' hne + 1 + (j : ℤ))
      else (gapList S (S.max' hne)).take n) = _
  rw [hmax']
  by_cases hlen : ((gapList S m).take n).length < n
  · rw [if_pos hlen]
    exact sortByKey_of_pairwise
      ((take_gap_append_run_pairwise S m n _).imp (fun h => le_of_lt h))
  · rw [if_neg hlen]
    have h0 : n - ((gapList S m).take n).length = 0 := by
      have := List.length_take n (gapList S m)
      omega
    rw [h0]
    simp only [List.range_zero, List.map_nil, List.append_nil]
    exact sortByKey_of_pairwise
      ((List.Pairwise.sublist (List.take_sublist _ _)
        (gapList_pairwise S m)).imp (fun h => le_of_lt h))

/-- C1: for every `n ≥ 0` and finite set `S` of integers, `find_new_ids`
returns exactly `n` strictly increasing integers disjoint from `S`; and
whenever `S` has maximum `m`, every returned id either fills a gap
strictly below `m` or lies in the bounded sequential run
`m+1, …, m+n` above it. -/
theorem find_new_ids_allocates (n : ℕ) (S : Finset ℤ) :
    (find_new_ids n S).length = n ∧
    (find_new_ids n S).Pairwise (· < ·) ∧
    (∀ x ∈ find_new_ids n S, x ∉ S) ∧
    (∀ m : ℤ, S.max = (m : WithBot ℤ) → ∀ x ∈ find_new_ids n S,
      (x < m ∧ x ∉ S) ∨ (m < x ∧ x ≤ m + (n : ℤ))) := by
  rcases Finset.eq_empty_or_nonempty S with hS | hS
  · subst hS
    refine ⟨by simp [find_new_ids], ?_, by simp, ?_⟩
    · simp only [find_new_ids, dif_pos rfl]
      exact List.Pairwise.map _ (fun a b h => by omega) (List.pairwise_lt_range _)
    · intro m hm
      rw [Finset.max_empty] at hm
      exact absurd hm.symm (WithBot.coe_ne_bot)
  · have hm : S.max = ((S.max' hS : ℤ) : WithBot ℤ) := (Finset.coe_max' hS).symm
    set m := S.max' hS with hmdef
    rw [find_new_ids_eq_of_max hm]
    have hmemgap : ∀ x ∈ (gapList S m).take n, 1 ≤ x ∧ x < m ∧ x ∉ S :=
      fun x hx => mem_gapList.mp (List.take_subset _ _ hx)
    have hmemrun : ∀ x ∈ (List.range (n - ((gapList S m).take n).length)).map
        (fun (j : ℕ) => m + 1 + (j : ℤ)), m < x ∧ x ≤ m + (n : ℤ) := by
      intro x hx
      rcases List.mem_map.mp hx with ⟨j, hj, rfl⟩
      rw [List.mem_range] at hj
      have hlt : (j : ℤ) < (n : ℤ) := by
        have := List.length_take n (gapList S m)
        omega
      omega
    refine ⟨?_, take_gap_append_run_pairwise S m n _, ?_, ?_⟩
    · rw [List.length_append, List.length_map, List.length_range,
        List.length_take]
      have := (gapList S m).length_take n
      omega
    · intro x hx
      rcases List.mem_append.mp hx with h | h
      · exact (hmemgap x h).2.2
      · intro hxS
        have := Finset.le_max' S x hxS
        have := (hmemrun x h).1
        omega
    · intro m' hm' x hx
      have hmm : m = m' := by
        rw [hm] at hm'
        exact_mod_cast hm'
      subst hmm
      rcases List.mem_append.mp hx with h | h
      · exact Or.inl ⟨(hmemgap x h).2.1, (hmemgap x h).2.2⟩
      · exact Or.inr (hmemrun x h)

/-- Closed instance of `find_new_ids_allocates` discharging its
`S.max = m` hypothesis at `n = 2`, `S = {1, 3}`, on the member `4`. -/
theorem find_new_ids_allocates_witness :
    ((4 : ℤ) < 3 ∧ (4 : ℤ) ∉ ({1, 3} : Finset ℤ)) ∨
      ((3 : ℤ) < 4 ∧ (4 : ℤ) ≤ 3 + ((2 : ℕ) : ℤ)) :=
  (find_new_ids_allocates 2 ({1, 3} : Finset ℤ)).2.2.2 3 (by decide) 4 (by decide)

/-- C2: the allocator is gap-preferring: on the spec's examples
`find_new_ids 1 {1,3} = [2]`, `find_new_ids 2 {1,3} = [2,4]`,
`find_new_ids 3 ∅ = [1,2,3]`; and in general, when `S` has maximum `m`,
the result is the ascending gap list below `m` truncated to `n`, extended
by the sequential run above `m`, the gap list being strictly ascending. -/
theorem find_new_ids_gap_preferring :
    find_new_ids 1 ({1, 3} : Finset ℤ) = [2] ∧
    find_new_ids 2 ({1, 3} : Finset ℤ) = [2, 4] ∧
    find_new_ids 3 (∅ : Finset ℤ) = [1, 2, 3] ∧
    (∀ (n : ℕ) (S : Finset ℤ) (m : ℤ), S.max = (m : WithBot ℤ) →
      find_new_ids n S =
        (gapList S m).take n ++
          (List.range (n - ((gapList S m).take n).length)).map
            (fun (j : ℕ) => m + 1 + (j : ℤ)) ∧
      (gapList S m).Pairwise (· < ·)) := by
  refine ⟨by decide, by decide, by decide, ?_⟩
  intro n S m hm
  exact ⟨find_new_ids_eq_of_max hm, gapList_pairwise S m⟩

/-- Closed instance of `find_new_ids_gap_preferring` discharging its
`S.max = m` hypothesis at `n = 1`, `S = {1, 3}`, `m = 3`. -/
theorem find_new_ids_gap_preferring_witness :
    find_new_ids 1 ({1, 3} : Finset ℤ) =
      (gapList ({1, 3} : Finset ℤ) 3).take 1 ++
        (List.range (1 - ((gapList ({1, 3} : Finset ℤ) 3).take 1).length)).map
          (fun (j : ℕ) => 3 + 1 + (j : ℤ)) ∧
    (gapList ({1, 3} : Finset ℤ) 3).Pairwise (· < ·) :=
  find_new_ids_gap_preferring.2.2.2 1 ({1, 3} : Finset ℤ) 3 (by decide)

/-! ## Theorems: validator (claims C3, C4, C10) -/

theorem mem_keys_userMapStep_foldl :
    ∀ (rows : List Row) (m : UserMap) (i : ℤ),
      i ∈ dictKeys (rows.foldl userMapStep m) →
      i ∈ dictKeys m ∨ ∃ row ∈ rows,
        (List.lookup "ID" row).bind pyInt? = some i ∧
        (List.lookup "Name" row).isSome ∧ (List.lookup "Email" row).isSome := by
  intro rows
  induction rows with
  | nil => intro m i h; exact Or.inl (by simpa using h)
  | cons row rest ih =>
    intro m i h
    rw [List.foldl_cons] at h
    rcases ih (userMapStep m row) i h with h' | h'
    · rcases hid : (List.lookup "ID" row).bind pyInt? with _ | j
      · rw [show userMapStep m row = m from by unfold userMapStep; rw [hid]] at h'
        exact Or.inl h'
      · rcases hn : List.lookup "Name" row with _ | n
        · rw [show userMapStep m row = m from by
            unfold userMapStep; rw [hid, hn]] at h'
          exact Or.inl h'
        · rcases he : List.lookup "Email" row with _ | e
          · rw [show userMapStep m row = m from by
              unfold userMapStep; rw [hid, hn, he]] at h'
            exact Or.inl h'
          · rw [show userMapStep m row = dictInsert j (n, e) m from by
              unfold userMapStep; rw [hid, hn, he]] at h'
            rcases mem_dictKeys_dictInsert h' with h'' | h''
            · subst h''
              exact Or.inr ⟨row, List.mem_cons_self _ _, hid,
                by rw [hn]; rfl, by rw [he]; rfl⟩
            · exact Or.inl h''
    · rcases h' with ⟨row', hrow', hprops⟩
      exact Or.inr ⟨row', List.mem_cons_of_mem _ hrow', hprops⟩

theorem processAccounts_cons_noID {m : UserMap} {row : Row} {rest : List Row}
    (hid : (List.lookup "ID" row).bind pyInt? = none) :
    processAccounts m (row :: rest) = processAccounts m rest := by
  simp only [processAccounts, hid]

theorem processAccounts_cons_noName {m : UserMap} {row : Row} {rest : List Row}
    {j : ℤ} (hid : (List.lookup "ID" row).bind pyInt? = some j)
    (hn : List.lookup "Name" row = none) :
    processAccounts m (row :: rest) = processAccounts m rest := by
  simp only [processAccounts, hid, hn]

theorem processAccounts_cons_noEmail {m : UserMap} {row : Row} {rest : List Row}
    {j : ℤ} {an : String} (hid : (List.lookup "ID" row).bind pyInt? = some j)
    (hn : List.lookup "Name" row = some an)
    (he : List.lookup "Email" row = none) :
    processAccounts m (row :: rest) = processAccounts m rest := by
  simp only [processAccounts, hid, hn, he]

theorem processAccounts_cons_unmatched {m : UserMap} {row : Row} {rest : List Row}
    {j : ℤ} {an ae : String} (hid : (List.lookup "ID" row).bind pyInt? = some j)
    (hn : List.lookup "Name" row = some an)
    (he : List.lookup "Email" row = some ae)
    (hd : List.lookup j m = none) :
    processAccounts m (row :: rest) = processAccounts m rest := by
  simp only [processAccounts, hid, hn, he, hd]

theorem processAccounts_cons_found {m : UserMap} {row : Row} {rest : List Row}
    {j : ℤ} {an ae : String} {d : String × String}
    (hid : (List.lookup "ID" row).bind pyInt? = some j)
    (hn : List.lookup "Name" row = some an)
    (he : List.lookup "Email" row = some ae)
    (hd : List.lookup j m = some d) :
    processAccounts m (row :: rest) =
      ((if d.1 ≠ an then [⟨j, "Name", d.1, an, "Name Mismatch"⟩] else []) ++
       (if d.2 ≠ ae then [⟨j, "Email", d.2, ae, "Email Mismatch"⟩] else []) ++
       (processAccounts (dictDelete j m) rest).1,
       (processAccounts (dictDelete j m) rest).2) := by
  simp only [processAccounts, hid, hn, he, hd]

theorem processAccounts_sound :
    ∀ (rows : List Row) (m : UserMap),
      (∀ f ∈ (processAccounts m rows).1, f.id ∈ dictKeys m) ∧
      (∀ kv ∈ (processAccounts m rows).2, kv ∈ m) := by
  intro rows
  induction rows with
  | nil =>
    intro m
    exact ⟨fun f h => absurd h (List.not_mem_nil f), fun kv h => h⟩
  | cons row rest ih =>
    intro m
    rcases hid : (List.lookup "ID" row).bind pyInt? with _ | j
    · rw [processAccounts_cons_noID hid]
      exact ih m
    · rcases hn : List.lookup "Name" row with _ | an
      · rw [processAccounts_cons_noName hid hn]
        exact ih m
      · rcases he : List.lookup "Email" row with _ | ae
        · rw [processAccounts_cons_noEmail hid hn he]
          exact ih m
        · rcases hd : List.lookup j m with _ | d
          · rw [processAccounts_cons_unmatched hid hn he hd]
            exact ih m
          · rw [processAccounts_cons_found hid hn he hd]
            have hjmem : j ∈ dictKeys m :=
              (lookup_isSome_iff j m).mp (by rw [hd]; rfl)
            constructor
            · intro f hf
              rcases List.mem_append.mp hf with h' | h'
              · rcases List.mem_append.mp h' with h'' | h''
                · by_cases hcase : d.1 ≠ an
                  · rw [if_pos hcase] at h''
                    rw [List.mem_singleton.mp h'']
                    exact hjmem
                  · rw [if_neg hcase] at h''
                    cases h''
                · by_cases hcase : d.2 ≠ ae
                  · rw [if_pos hcase] at h''
                    rw [List.mem_singleton.mp h'']
                    exact hjmem
                  · rw [if_neg hcase] at h''
                    cases h''
              · exact dictKeys_dictDelete_subset
                  ((ih (dictDelete j m)).1 f h')
            · intro kv hkv
              exact dictDelete_subset ((ih (dictDelete j m)).2 kv hkv)

theorem processAccounts_preserves_key :
    ∀ (rows : List Row) (m : UserMap) (i : ℤ),
      i ∈ dictKeys m →
      (∀ row ∈ rows, (List.lookup "ID" row).bind pyInt? = some i →
        List.lookup "Name" row = none ∨ List.lookup "Email" row = none) →
      i ∈ dictKeys (processAccounts m rows).2 := by
  intro rows
  induction rows with
  | nil => intro m i hi _; exact hi
  | cons row rest ih =>
    intro m i hi hrows
    have hrest : ∀ row' ∈ rest, (List.lookup "ID" row').bind pyInt? = some i →
        List.lookup "Name" row' = none ∨ List.lookup "Email" row' = none :=
      fun row' h' => hrows row' (List.mem_cons_of_mem _ h')
    rcases hid : (List.lookup "ID" row).bind pyInt? with _ | j
    · rw [processAccounts_cons_noID hid]
      exact ih m i hi hrest
    · rcases hn : List.lookup "Name" row with _ | an
      · rw [processAccounts_cons_noName hid hn]
        exact ih m i hi hrest
      · rcases he : List.lookup "Email" row with _ | ae
        · rw [processAccounts_cons_noEmail hid hn he]
          exact ih m i hi hrest
        · have hji : j ≠ i := by
            intro hji
            subst hji
            rcases hrows row (List.mem_cons_self _ _) hid with h0 | h0
            · rw [h0] at hn; cases hn
            · rw [h0] at he; cases he
          rcases hd : List.lookup j m with _ | d
          · rw [processAccounts_cons_unmatched hid hn he hd]
            exact ih m i hi hrest
          · rw [processAccounts_cons_found hid hn he hd]
            exact ih (dictDelete j m) i
              (mem_dictKeys_dictDelete hi (fun h => hji h.symm)) hrest

theorem dictKeys_buildUserMap_sub (user_rows : List Row) :
    ∀ a ∈ dictKeys (buildUserMap user_rows), a ∈ primaryIds user_rows := by
  intro a ha
  rcases mem_keys_userMapStep_foldl user_rows [] a ha with h' | h'
  · simp [dictKeys] at h'
  · rcases h' with ⟨row, hrow, hid, _, _⟩
    exact List.mem_filterMap.mpr ⟨row, hrow, hid⟩

/-- C3: on the spec's two validator scenarios the validator emits exactly
one finding each: a `Name` field mismatch for id `5` when primary says
`"Ann"` and secondary says `"Anne"` with equal emails, and one
missing-counterpart finding for id `7` when the primary row has no
secondary counterpart. -/
theorem check_data_integrity_scenarios :
    check_data_integrity
        [[("ID", "5"), ("Name", "Ann"), ("Email", "a@x.com")]]
        [[("ID", "5"), ("Name", "Anne"), ("Email", "a@x.com")]] =
      [⟨5, "Name", "Ann", "Anne", "Name Mismatch"⟩] ∧
    check_data_integrity
        [[("ID", "7"), ("Name", "Grace"), ("Email", "g@x.com")]] [] =
      [⟨7, "ID", "Grace", "N/A", "Missing match for ID 7 in other file."⟩] :=
  ⟨by decide, by decide⟩

/-- C4: the validator is asymmetric — every emitted finding carries an
identifier parsed from some primary row, so an identifier appearing only
in the secondary dataset produces no finding of any kind. -/
theorem validator_asymmetric (user_rows account_rows : List Row) (i : ℤ)
    (h : i ∉ primaryIds user_rows) :
    ∀ f ∈ check_data_integrity user_rows account_rows, f.id ≠ i := by
  intro f hf
  have hf' : f ∈ (processAccounts (buildUserMap user_rows) account_rows).1 ++
      (processAccounts (buildUserMap user_rows) account_rows).2.map
        (fun kv => (⟨kv.1, "ID", kv.2.1, "N/A", missingIssue kv.1⟩ : Finding)) := hf
  rcases List.mem_append.mp hf' with h' | h'
  · intro hEq
    refine h (dictKeys_buildUserMap_sub user_rows i ?_)
    rw [← hEq]
    exact (processAccounts_sound account_rows (buildUserMap user_rows)).1 f h'
  · rcases List.mem_map.mp h' with ⟨kv, hkv, hfe⟩
    intro hEq
    have hid : f.id = kv.1 := by rw [← hfe]
    refine h (dictKeys_buildUserMap_sub user_rows i ?_)
    rw [← hEq, hid]
    exact List.mem_map.mpr
      ⟨kv, (processAccounts_sound account_rows (buildUserMap user_rows)).2 kv hkv, rfl⟩

/-- Closed instance of `validator_asymmetric`: the id `9` occurs only in
the (here irrelevant) secondary side, so the single finding produced by
the inputs does not mention it. -/
theorem validator_asymmetric_witness :
    (⟨5, "ID", "Bob", "N/A", missingIssue 5⟩ : Finding).id ≠ 9 :=
  validator_asymmetric [[("ID", "5"), ("Name", "Bob"), ("Email", "b@x.com")]]
    [[("ID", "9"), ("Name", "Eve"), ("Email", "e@x.com")]] 9 (by decide)
    ⟨5, "ID", "Bob", "N/A", missingIssue 5⟩ (by decide)

/-- C10: validator rows lacking `Name` or `Email` are silently skipped:
(a) if every primary row carrying id `i` lacks `Name` or `Email`, then
`i` never enters the map and no finding of any kind mentions `i`; (b) if
`i` is in the primary map but every secondary row carrying `i` lacks
`Name` or `Email`, those rows are skipped before they can mark `i`
matched, so a missing-counterpart finding for `i` is emitted even though
a secondary record with that identifier exists. -/
theorem validator_skips_incomplete_rows
    (user_rows account_rows : List Row) (i : ℤ) :
    ((∀ row ∈ user_rows, (List.lookup "ID" row).bind pyInt? = some i →
        List.lookup "Name" row = none ∨ List.lookup "Email" row = none) →
      ∀ f ∈ check_data_integrity user_rows account_rows, f.id ≠ i) ∧
    (i ∈ dictKeys (buildUserMap user_rows) →
      (∀ row ∈ account_rows, (List.lookup "ID" row).bind pyInt? = some i →
        List.lookup "Name" row = none ∨ List.lookup "Email" row = none) →
      ∃ f ∈ check_data_integrity user_rows account_rows,
        f.id = i ∧ f.field = "ID" ∧ f.accountValue = "N/A" ∧
          f.issue = missingIssue i) := by
  constructor
  · intro hu f hf
    have hnk : i ∉ dictKeys (buildUserMap user_rows) := by
      intro hmem
      rcases mem_keys_userMapStep_foldl user_rows [] i hmem with h' | h'
      · simp [dictKeys] at h'
      · rcases h' with ⟨row, hrow, hid, hn, he⟩
        rcases hu row hrow hid with h0 | h0
        · rw [h0] at hn; simp at hn
        · rw [h0] at he; simp at he
    have hf' : f ∈ (processAccounts (buildUserMap user_rows) account_rows).1 ++
        (processAccounts (buildUserMap user_rows) account_rows).2.map
          (fun kv => (⟨kv.1, "ID", kv.2.1, "N/A", missingIssue kv.1⟩ : Finding)) := hf
    rcases List.mem_append.mp hf' with h' | h'
    · intro hEq
      refine hnk ?_
      rw [← hEq]
      exact (processAccounts_sound account_rows (buildUserMap user_rows)).1 f h'
    · rcases List.mem_map.mp h' with ⟨kv, hkv, hfe⟩
      intro hEq
      have hid : f.id = kv.1 := by rw [← hfe]
      refine hnk ?_
      rw [← hEq, hid]
      exact List.mem_map.mpr
        ⟨kv, (processAccounts_sound account_rows (buildUserMap user_rows)).2 kv hkv, rfl⟩
  · intro hi hacc
    have hkey := processAccounts_preserves_key account_rows (buildUserMap user_rows)
      i hi hacc
    rcases List.mem_map.mp hkey with ⟨kv, hkv, hkv1⟩
    refine ⟨⟨kv.1, "ID", kv.2.1, "N/A", missingIssue kv.1⟩, ?_, hkv1, rfl, rfl,
      by rw [hkv1]⟩
    exact List.mem_append.mpr (Or.inr (List.mem_map.mpr ⟨kv, hkv, rfl⟩))

/-- Closed instance of `validator_skips_incomplete_rows` discharging both
parts' hypotheses: a primary row with id 3 but no `Email` yields no
finding for 3, and a secondary row with id 7 but no `Email` still leaves
the primary id 7 reported missing. -/
theorem validator_skips_incomplete_rows_witness :
    ((⟨5, "ID", "Bob", "N/A", missingIssue 5⟩ : Finding).id ≠ 3) ∧
    (∃ f ∈ check_data_integrity
        [[("ID", "7"), ("Name", "Cay"), ("Email", "c@x.com")]]
        [[("ID", "7"), ("Name", "Cay")]],
      f.id = 7 ∧ f.field = "ID" ∧ f.accountValue = "N/A" ∧
        f.issue = missingIssue 7) :=
  ⟨(validator_skips_incomplete_rows
      [[("ID", "3"), ("Name", "NoMail")],
       [("ID", "5"), ("Name", "Bob"), ("Email", "b@x.com")]] [] 3).1
      (by decide) ⟨5, "ID", "Bob", "N/A", missingIssue 5⟩ (by decide),
   (validator_skips_incomplete_rows
      [[("ID", "7"), ("Name", "Cay"), ("Email", "c@x.com")]]
      [[("ID", "7"), ("Name", "Cay")]] 7).2 (by decide) (by decide)⟩

/-! ## Theorems: rewrite engine (claim C8) -/

/-- C8: a successful `rewrite_csv_task` emits the header row of declared
field names first, then one serialized row per record, sorted ascending
by the integer value of the `ID` field; the sort is stable — rows with
equal identifiers retain their relative input order — and the write is a
full overwrite, independent of the target's previous content. -/
theorem rewrite_sorted_stable (prev : Option CsvFile) (fieldnames : List String)
    (rows : List Row) (F : CsvFile)
    (h : rewrite_csv_task prev fieldnames rows = some F) :
    F.header = fieldnames ∧
    F.lines = (sortByKey rowKey rows).map (serializeRow fieldnames) ∧
    (sortByKey rowKey rows).Pairwise (fun a b => rowKey a ≤ rowKey b) ∧
    (∀ k : ℤ, (sortByKey rowKey rows).filter (fun r => rowKey r == k) =
      rows.filter (fun r => rowKey r == k)) ∧
    (∀ prev' : Option CsvFile, rewrite_csv_task prev' fieldnames rows = some F) := by
  unfold rewrite_csv_task at h
  by_cases h1 : rows.all canSortRow
  · rw [if_pos h1] at h
    by_cases h2 : rows.all (rowFits fieldnames)
    · rw [if_pos h2] at h
      injection h with h
      subst h
      refine ⟨rfl, rfl, sortByKey_pairwise _ _, fun k => sortByKey_stable _ _ _, ?_⟩
      intro prev'
      unfold rewrite_csv_task
      rw [if_pos h1, if_pos h2]
    · rw [if_neg h2] at h
      cases h
  · rw [if_neg h1] at h
    cases h

/-- Closed instance of `rewrite_sorted_stable`, discharging its success
hypothesis on three concrete rows (two sharing id 7): the stability
clause at key 7 returns the two equal-id rows in input order. -/
theorem rewrite_sorted_stable_witness :
    (sortByKey rowKey rewriteWitnessRows).filter (fun r => rowKey r == 7) =
      rewriteWitnessRows.filter (fun r => rowKey r == 7) :=
  (rewrite_sorted_stable none USER_FIELDS rewriteWitnessRows rewriteWitnessFile
    (by decide)).2.2.2.1 7

/-! ## Theorems: chunked export (claim C5) -/

theorem pairwise_replicate_self {r : α → α → Prop} {x : α} (hx : r x x) :
    ∀ n, (List.replicate n x).Pairwise r := by
  intro n
  induction n with
  | zero => simp
  | succ k ih =>
    rw [List.replicate_succ]
    refine List.pairwise_cons.mpr ⟨?_, ih⟩
    intro y hy
    rw [List.eq_of_mem_replicate hy]
    exact hx

set_option maxRecDepth 40000 in
/-- C5 counterexample: a 250-row input whose chunks are not internally
sorted by identifier — `write_clean_csv` never sorts its input, and the
pipeline hands it the in-memory concatenation, which stays unsorted
because the parallel worker sorts only a pickled copy. -/
theorem write_clean_csv_unsorted_cex :
    chunkCexRows.length = 250 ∧
    ¬ (∀ c ∈ pyChunks100 chunkCexRows,
        c.Pairwise (fun a b => rowKey a ≤ rowKey b)) := by
  constructor
  · decide
  · intro hall
    have hmem : [[("ID", "2")], [("ID", "1")]] ++
        ((List.range 98).map (fun i => [("ID", toString (i + 3))])) ∈
        pyChunks100 chunkCexRows := by decide
    have := hall _ hmem
    rw [List.pairwise_append] at this
    have h21 := this.1
    rw [List.pairwise_cons] at h21
    have := h21.1 [("ID", "1")] (List.mem_singleton.mpr rfl)
    revert this
    decide

/-- C5 (amended): for a 250-row input that is already sorted ascending by
the integer `ID` — as the spec's "full sorted row sequence" presupposes —
`write_clean_csv` produces exactly the three contiguous chunks of sizes
100, 100 and 50, each written under the 1-based part index in traversal
order, each carrying exactly the configured clean columns, and each chunk
internally sorted ascending by identifier. -/
theorem write_clean_csv_chunks (base : String) (clean : List String)
    (rows : List Row) (h250 : rows.length = 250)
    (hsorted : rows.Pairwise (fun a b => rowKey a ≤ rowKey b)) :
    write_clean_csv base clean rows =
      (List.range 3).map (fun j =>
        (partName base (j + 1),
         ⟨clean, ((rows.drop (j * 100)).take 100).map (serializeRow clean)⟩)) ∧
    (pyChunks100 rows).map List.length = [100, 100, 50] ∧
    (∀ p ∈ write_clean_csv base clean rows, p.2.header = clean ∧
      ∀ line ∈ p.2.lines, line.length = clean.length) ∧
    (∀ c ∈ pyChunks100 rows, c.Pairwise (fun a b => rowKey a ≤ rowKey b)) := by
  have hn : (rows.length + 99) / 100 = 3 := by rw [h250]
  have heq : write_clean_csv base clean rows =
      (List.range 3).map (fun j =>
        (partName base (j + 1),
         ⟨clean, ((rows.drop (j * 100)).take 100).map (serializeRow clean)⟩)) := by
    unfold write_clean_csv
    rw [hn]
  have hlen : ∀ j : ℕ, ((rows.drop (j * 100)).take 100).length =
      min 100 (250 - j * 100) := by
    intro j
    rw [List.length_take, List.length_drop, h250]
  refine ⟨heq, ?_, ?_, ?_⟩
  · unfold pyChunks100
    rw [hn]
    show [((rows.drop (0 * 100)).take 100).length,
          ((rows.drop (1 * 100)).take 100).length,
          ((rows.drop (2 * 100)).take 100).length] = [100, 100, 50]
    rw [hlen 0, hlen 1, hlen 2]
    decide
  · intro p hp
    rw [heq] at hp
    rcases List.mem_map.mp hp with ⟨j, _, rfl⟩
    refine ⟨rfl, ?_⟩
    intro line hline
    rcases List.mem_map.mp hline with ⟨r, _, rfl⟩
    simp [serializeRow]
  · intro c hc
    rcases List.mem_map.mp hc with ⟨j, _, rfl⟩
    exact List.Pairwise.sublist
      ((List.take_sublist _ _).trans (List.drop_sublist _ _)) hsorted

/-- Closed instance of `write_clean_csv_chunks` discharging its 250-row
and sortedness hypotheses on a concrete sorted input. -/
theorem write_clean_csv_chunks_witness :
    (pyChunks100 chunkSortedRows).map List.length = [100, 100, 50] := by
  refine (write_clean_csv_chunks CLEAN_USER_FILE CLEAN_USER_FIELDS chunkSortedRows
    ?_ ?_).2.1
  · unfold chunkSortedRows
    rw [List.length_replicate]
  · show (List.replicate 250 ([("ID", "1")] : Row)).Pairwise
      (fun a b => rowKey a ≤ rowKey b)
    refine pairwise_replicate_self ?_ 250
    exact le_refl _

/-! ## Theorems: reading back a written file (claims C7, C6) -/

theorem zip_self_map (g : α → β) :
    ∀ l : List α, l.zip (l.map g) = l.map (fun a => (a, g a)) := by
  intro l
  induction l with
  | nil => rfl
  | cons x xs ih => simp [ih]

theorem lookup_map_pair [BEq α] [LawfulBEq α] (g : α → β) :
    ∀ (l : List α) (a : α), a ∈ l →
      List.lookup a (l.map (fun x => (x, g x))) = some (g a) := by
  intro l
  induction l with
  | nil => intro a ha; cases ha
  | cons x xs ih =>
    intro a ha
    by_cases hax : (a == x) = true
    · have : a = x := eq_of_beq hax
      subst this
      simp [List.lookup]
    · have hne : a ≠ x := fun h => hax (by rw [h]; exact beq_self_eq_true x)
      have hmem : a ∈ xs := by
        rcases List.mem_cons.mp ha with h | h
        · exact absurd h hne
        · exact h
      simp only [List.map_cons, List.lookup, hax]
      exact ih a hmem

theorem lookup_mem [BEq α] : ∀ {l : List (α × β)} {a : α} {b : β},
    List.lookup a l = some b → ∃ k, (k, b) ∈ l := by
  intro l
  induction l with
  | nil => intro a b h; cases h
  | cons kv rest ih =>
    rcases kv with ⟨k0, v0⟩
    intro a b h
    by_cases hb : (a == k0) = true
    · simp only [List.lookup, hb] at h
      injection h with h
      exact ⟨k0, by rw [← h]; exact List.mem_cons_self _ _⟩
    · simp only [List.lookup, hb] at h
      rcases ih h with ⟨k, hk⟩
      exact ⟨k, List.mem_cons_of_mem _ hk⟩

theorem lookup_normRow {fieldnames : List String} {f : String}
    (hf : f ∈ fieldnames) (r : Row) :
    List.lookup f (normRow fieldnames r) =
      some (pyStrip ((List.lookup f r).getD "")) :=
  lookup_map_pair _ fieldnames f hf

theorem cleanupRow_serializeRow {fieldnames : List String}
    (hgf : GoodFields fieldnames) (r : Row) :
    cleanupRow fieldnames (serializeRow fieldnames r) = normRow fieldnames r := by
  have hmm : ((fieldnames.zip (serializeRow fieldnames r)).map
      (fun kv => (pyStrip kv.1, pyStrip kv.2))) =
      fieldnames.map (fun f => (f, pyStrip ((List.lookup f r).getD ""))) := by
    unfold serializeRow
    rw [zip_self_map, List.map_map]
    refine List.map_congr_left ?_
    intro f hf
    show (pyStrip f, pyStrip ((List.lookup f r).getD "")) = _
    rw [(hgf.2 f hf).1]
  unfold cleanupRow
  rw [hmm]
  have hfilter : (fieldnames.map
      (fun f => (f, pyStrip ((List.lookup f r).getD "")))).filter
      (fun kv => !(kv.1 == "")) =
      fieldnames.map (fun f => (f, pyStrip ((List.lookup f r).getD ""))) := by
    rw [List.filter_eq_self]
    intro kv hkv
    rcases List.mem_map.mp hkv with ⟨f, hf, rfl⟩
    simp [beq_iff_eq, (hgf.2 f hf).2]
  rw [hfilter]
  refine pyDictOf_eq_self ?_
  have hkeys : dictKeys (fieldnames.map
      (fun f => (f, pyStrip ((List.lookup f r).getD "")))) = fieldnames := by
    unfold dictKeys
    rw [List.map_map]
    rw [show (Prod.fst ∘ fun f : String =>
      (f, pyStrip ((List.lookup f r).getD ""))) = id from rfl, List.map_id]
  rw [hkeys]
  exact hgf.1

theorem bind_pyInt?_getD (o : Option String) :
    pyInt? (o.getD "") = o.bind pyInt? := by
  cases o with
  | none => rfl
  | some s => rfl

theorem canSortRow_normRow {fieldnames : List String}
    (hID : "ID" ∈ fieldnames) (r : Row) :
    canSortRow (normRow fieldnames r) = canSortRow r := by
  unfold canSortRow
  rw [lookup_normRow hID]
  show (pyInt? (pyStrip ((List.lookup "ID" r).getD ""))).isSome = _
  rw [pyInt?_pyStrip, bind_pyInt?_getD]

theorem rowKey_normRow {fieldnames : List String}
    (hID : "ID" ∈ fieldnames) (r : Row) :
    rowKey (normRow fieldnames r) = rowKey r := by
  unfold rowKey
  rw [lookup_normRow hID]
  show (pyInt? (pyStrip ((List.lookup "ID" r).getD ""))).getD 0 = _
  rw [pyInt?_pyStrip, bind_pyInt?_getD]

theorem serializeRow_normRow {fieldnames : List String} {r : Row}
    (hstr : ∀ kv ∈ r, pyStrip kv.2 = kv.2) :
    serializeRow fieldnames (normRow fieldnames r) = serializeRow fieldnames r := by
  unfold serializeRow
  refine List.map_congr_left ?_
  intro f hf
  rw [show List.lookup f (normRow fieldnames r) =
      some (pyStrip ((List.lookup f r).getD "")) from lookup_normRow hf r]
  show pyStrip ((List.lookup f r).getD "") = (List.lookup f r).getD ""
  rcases hl : List.lookup f r with _ | v
  · rfl
  · rcases lookup_mem hl with ⟨k, hk⟩
    exact hstr (k, v) hk

theorem rowFits_normRow (fieldnames : List String) (r : Row) :
    rowFits fieldnames (normRow fieldnames r) = true := by
  unfold rowFits normRow
  rw [List.all_eq_true]
  intro kv hkv
  rcases List.mem_map.mp hkv with ⟨f, hf, rfl⟩
  rw [List.contains_eq_any_beq, List.any_eq_true]
  exact ⟨f, hf, beq_self_eq_true f⟩

theorem idsOf_cons (r : Row) (rows : List Row) :
    idsOf (r :: rows) = insert (rowKey r) (idsOf rows) := by
  unfold idsOf
  rw [List.map_cons, List.toFinset_cons]

theorem readLines_cons_valid {fname : String} {header : List String}
    {cells : List String} {rest : List (List String)} {i : ℤ}
    (hlen : ¬ cells.length < header.length)
    (hpi : pyInt? ((List.lookup "ID" (cleanupRow header cells)).getD "") = some i) :
    readLines fname header (cells :: rest) =
      ⟨cleanupRow header cells :: (readLines fname header rest).rows,
       insert i (readLines fname header rest).ids,
       (readLines fname header rest).invalids⟩ := by
  simp only [readLines]
  rw [if_neg hlen, hpi]

theorem readLines_serialize (fname : String) (fieldnames : List String)
    (hgf : GoodFields fieldnames) (hID : "ID" ∈ fieldnames) :
    ∀ rs : List Row, (∀ r ∈ rs, canSortRow r = true) →
      readLines fname fieldnames (rs.map (serializeRow fieldnames)) =
        ⟨rs.map (normRow fieldnames), idsOf (rs.map (normRow fieldnames)), []⟩ := by
  intro rs
  induction rs with
  | nil => intro _; rfl
  | cons r rs' ih =>
    intro hcan
    have hcr := hcan r (List.mem_cons_self _ _)
    have hcan' : ∀ r' ∈ rs', canSortRow r' = true :=
      fun r' h' => hcan r' (List.mem_cons_of_mem _ h')
    have hlen : ¬ (serializeRow fieldnames r).length < fieldnames.length := by
      unfold serializeRow
      rw [List.length_map]
      exact lt_irrefl _
    have hclean := cleanupRow_serializeRow hgf r
    have hcsn : canSortRow (normRow fieldnames r) = true := by
      rw [canSortRow_normRow hID]
      exact hcr
    have hsome : ∃ i, pyInt? ((List.lookup "ID" (normRow fieldnames r)).getD "") =
        some i := by
      rw [bind_pyInt?_getD]
      unfold canSortRow at hcsn
      exact Option.isSome_iff_exists.mp hcsn
    rcases hsome with ⟨i, hpi⟩
    have hkey : rowKey (normRow fieldnames r) = i := by
      unfold rowKey
      rw [← bind_pyInt?_getD, hpi]
      rfl
    rw [List.map_cons,
      readLines_cons_valid hlen (by rw [hclean]; exact hpi),
      ih hcan', hclean]
    show (⟨normRow fieldnames r :: rs'.map (normRow fieldnames),
        insert i (idsOf (rs'.map (normRow fieldnames))), []⟩ : ReadResult) = _
    rw [List.map_cons, idsOf_cons, hkey]

theorem read_all_data_rewrite (prev : Option CsvFile) (fieldnames : List String)
    (rows : List Row) (F : CsvFile) (fname : String)
    (hgf : GoodFields fieldnames) (hID : "ID" ∈ fieldnames)
    (hw : rewrite_csv_task prev fieldnames rows = some F) :
    (read_all_data fname (some F)).rows =
      (sortByKey rowKey rows).map (normRow fieldnames) ∧
    (read_all_data fname (some F)).ids = idsOf rows ∧
    (read_all_data fname (some F)).invalids = [] ∧
    rows.all canSortRow = true := by
  unfold rewrite_csv_task at hw
  by_cases h1 : rows.all canSortRow
  · rw [if_pos h1] at hw
    by_cases h2 : rows.all (rowFits fieldnames)
    · rw [if_pos h2] at hw
      injection hw with hw
      subst hw
      have hcan : ∀ r ∈ sortByKey rowKey rows, canSortRow r = true := by
        intro r hr
        exact List.all_eq_true.mp h1 r ((mem_sortByKey_iff _ _ _).mp hr)
      have hread := readLines_serialize fname fieldnames hgf hID
        (sortByKey rowKey rows) hcan
      have hids : idsOf ((sortByKey rowKey rows).map (normRow fieldnames)) =
          idsOf rows := by
        unfold idsOf
        rw [List.map_map]
        have hmapeq : (sortByKey rowKey rows).map (rowKey ∘ normRow fieldnames) =
            (sortByKey rowKey rows).map rowKey :=
          List.map_congr_left (fun r _ => rowKey_normRow hID r)
        rw [hmapeq]
        have hperm : List.Perm ((sortByKey rowKey rows).map rowKey)
            (rows.map rowKey) := (sortByKey_perm rowKey rows).map rowKey
        ext a
        simp only [List.mem_toFinset]
        exact hperm.mem_iff
      refine ⟨?_, ?_, ?_, h1⟩
      · show (readLines fname _ _).rows = _
        rw [hread]
      · show (readLines fname _ _).ids = _
        rw [hread]
        exact hids
      · show (readLines fname _ _).invalids = _
        rw [hread]
    · rw [if_neg h2] at hw
      cases hw
  · rw [if_neg h1] at hw
    cases hw

/-- C7 counterexample: on a row whose `Name` value carries leading
whitespace the write succeeds, the read back yields zero invalid rows but
a different field value (`"Ann"` instead of `" Ann"`), so the round trip
does not return the same valid-row set. -/
theorem write_read_roundtrip_cex :
    rewrite_csv_task none USER_FIELDS roundtripCexRows = some roundtripCexFile ∧
    (read_all_data USER_FILE (some roundtripCexFile)).invalids = [] ∧
    (read_all_data USER_FILE (some roundtripCexFile)).rows.map
      (fun r => List.lookup "Name" r) = [some "Ann"] ∧
    roundtripCexRows.map (fun r => List.lookup "Name" r) = [some " Ann"] ∧
    some "Ann" ≠ some " Ann" := by
  decide

/-- C7 (amended): for a row set in which every row carries every declared
field and no value has surrounding whitespace, writing with the rewrite
engine and reading back yields the same valid rows — equal field values
row by row in re-sorted order, the identifier set unchanged — and an
empty sequence of invalid rows. -/
theorem write_read_roundtrip (prev : Option CsvFile) (fieldnames : List String)
    (rows : List Row) (F : CsvFile) (fname : String)
    (hgf : GoodFields fieldnames) (hID : "ID" ∈ fieldnames)
    (hcomplete : ∀ r ∈ rows, ∀ f ∈ fieldnames, (List.lookup f r).isSome = true)
    (hstripped : ∀ r ∈ rows, ∀ kv ∈ r, pyStrip kv.2 = kv.2)
    (hw : rewrite_csv_task prev fieldnames rows = some F) :
    (read_all_data fname (some F)).invalids = [] ∧
    (read_all_data fname (some F)).rows.length = rows.length ∧
    (∀ f ∈ fieldnames,
      (read_all_data fname (some F)).rows.map (fun r => List.lookup f r) =
        (sortByKey rowKey rows).map (fun r => List.lookup f r)) ∧
    (read_all_data fname (some F)).ids = idsOf rows := by
  obtain ⟨hrows, hids, hinv, _⟩ :=
    read_all_data_rewrite prev fieldnames rows F fname hgf hID hw
  refine ⟨hinv, ?_, ?_, hids⟩
  · rw [hrows, List.length_map, length_sortByKey]
  · intro f hf
    rw [hrows, List.map_map]
    refine List.map_congr_left ?_
    intro r hr
    have hrmem : r ∈ rows := (mem_sortByKey_iff _ _ _).mp hr
    show List.lookup f (normRow fieldnames r) = List.lookup f r
    rw [lookup_normRow hf]
    rcases hl : List.lookup f r with _ | v
    · have := hcomplete r hrmem f hf
      rw [hl] at this
      simp at this
    · have hv : pyStrip v = v := by
        rcases lookup_mem hl with ⟨k, hk⟩
        exact hstripped r hrmem (k, v) hk
      show some (pyStrip ((some v).getD "")) = some v
      rw [Option.getD_some, hv]

/-- Closed instance of `write_read_roundtrip` discharging all hypotheses
on two concrete complete rows: the identifier set survives the round
trip. -/
theorem write_read_roundtrip_witness :
    (read_all_data USER_FILE (some roundtripWitnessFile)).ids =
      idsOf roundtripWitnessRows :=
  (write_read_roundtrip none USER_FIELDS roundtripWitnessRows
    roundtripWitnessFile USER_FILE (by decide) (by decide) (by decide)
    (by decide) (by decide)).2.2.2

/-! ## Theorems: pipeline idempotence (claim C6) -/

theorem rewrite_csv_task_some {prev : Option CsvFile} {fieldnames : List String}
    {rows : List Row} {F : CsvFile}
    (h : rewrite_csv_task prev fieldnames rows = some F) :
    F = ⟨fieldnames, (sortByKey rowKey rows).map (serializeRow fieldnames)⟩ ∧
    rows.all canSortRow = true ∧ rows.all (rowFits fieldnames) = true := by
  unfold rewrite_csv_task at h
  by_cases h1 : rows.all canSortRow
  · rw [if_pos h1] at h
    by_cases h2 : rows.all (rowFits fieldnames)
    · rw [if_pos h2] at h
      injection h with h
      exact ⟨h.symm, h1, h2⟩
    · rw [if_neg h2] at h
      cases h
  · rw [if_neg h1] at h
    cases h

theorem rewrite_csv_task_of_conditions {prev : Option CsvFile}
    {fieldnames : List String} {rows : List Row}
    (h1 : rows.all canSortRow = true) (h2 : rows.all (rowFits fieldnames) = true) :
    rewrite_csv_task prev fieldnames rows =
      some ⟨fieldnames, (sortByKey rowKey rows).map (serializeRow fieldnames)⟩ := by
  unfold rewrite_csv_task
  rw [if_pos h1, if_pos h2]

theorem readLines_cons_invalid {fname : String} {header : List String}
    {cells : List String} {rest : List (List String)}
    (hlen : ¬ cells.length < header.length)
    (hpi : pyInt? ((List.lookup "ID" (cleanupRow header cells)).getD "") = none) :
    readLines fname header (cells :: rest) =
      ⟨(readLines fname header rest).rows, (readLines fname header rest).ids,
       ⟨fname, cleanupRow header cells,
        if (dictKeys (cleanupRow header cells)).contains "ID"
        then "Non-integer ID" else "Missing ID"⟩
         :: (readLines fname header rest).invalids⟩ := by
  simp only [readLines]
  rw [if_neg hlen, hpi]

theorem readLines_rows_cleanup (fname : String) (header : List String) :
    ∀ lines : List (List String), ∀ r ∈ (readLines fname header lines).rows,
      ∃ cells, r = cleanupRow header cells := by
  intro lines
  induction lines with
  | nil => intro r h; cases h
  | cons cells rest ih =>
    intro r h
    by_cases hlen : cells.length < header.length
    · rw [show readLines fname header (cells :: rest) = ⟨[], ∅, []⟩ from by
        simp only [readLines]; rw [if_pos hlen]] at h
      cases h
    · rcases hpi : pyInt? ((List.lookup "ID" (cleanupRow header cells)).getD "")
        with _ | i
      · rw [readLines_cons_invalid hlen hpi] at h
        exact ih r h
      · rw [readLines_cons_valid hlen hpi] at h
        rcases List.mem_cons.mp h with h' | h'
        · exact ⟨cells, h'⟩
        · exact ih r h'

theorem cleanupRow_values_stripped (header cells : List String) :
    ∀ kv ∈ cleanupRow header cells, pyStrip kv.2 = kv.2 := by
  intro kv hkv
  have hkv' := mem_pyDictOf hkv
  rcases List.mem_filter.mp hkv' with ⟨hmem, _⟩
  rcases List.mem_map.mp hmem with ⟨kv0, _, rfl⟩
  exact pyStrip_pyStrip kv0.2

theorem read_rows_stripped (fname : String) (file : Option CsvFile) :
    ∀ r ∈ (read_all_data fname file).rows, ∀ kv ∈ r, pyStrip kv.2 = kv.2 := by
  intro r hr
  cases file with
  | none => exact absurd hr (List.not_mem_nil r)
  | some F =>
    rcases readLines_rows_cleanup fname F.header F.lines r hr with ⟨cells, rfl⟩
    exact cleanupRow_values_stripped F.header cells

/-- Re-reading a successfully written file and rewriting it again, onto
any previous content, reproduces the file byte for byte. -/
theorem reread_rewrite (prev prev₂ : Option CsvFile) (fieldnames : List String)
    (rows : List Row) (F : CsvFile) (fname : String)
    (hgf : GoodFields fieldnames) (hID : "ID" ∈ fieldnames)
    (hstripped : ∀ r ∈ rows, ∀ kv ∈ r, pyStrip kv.2 = kv.2)
    (hw : rewrite_csv_task prev fieldnames rows = some F) :
    rewrite_csv_task prev₂ fieldnames (read_all_data fname (some F)).rows =
      some F := by
  obtain ⟨hrows, _, _, hall⟩ :=
    read_all_data_rewrite prev fieldnames rows F fname hgf hID hw
  obtain ⟨hF, h1, h2⟩ := rewrite_csv_task_some hw
  have hcan : ((read_all_data fname (some F)).rows).all canSortRow = true := by
    rw [hrows, List.all_eq_true]
    intro r hr
    rcases List.mem_map.mp hr with ⟨r0, hr0, rfl⟩
    rw [canSortRow_normRow hID]
    exact List.all_eq_true.mp h1 r0 ((mem_sortByKey_iff _ _ _).mp hr0)
  have hfits : ((read_all_data fname (some F)).rows).all
      (rowFits fieldnames) = true := by
    rw [hrows, List.all_eq_true]
    intro r hr
    rcases List.mem_map.mp hr with ⟨r0, _, rfl⟩
    exact rowFits_normRow fieldnames r0
  rw [rewrite_csv_task_of_conditions hcan hfits]
  have hsortns : sortByKey rowKey ((read_all_data fname (some F)).rows) =
      (read_all_data fname (some F)).rows := by
    refine sortByKey_of_pairwise ?_
    rw [hrows]
    refine List.Pairwise.map _ ?_ (sortByKey_pairwise rowKey rows)
    intro a b hab
    rw [rowKey_normRow hID, rowKey_normRow hID]
    exact hab
  have hser : ((read_all_data fname (some F)).rows).map
      (serializeRow fieldnames) =
      (sortByKey rowKey rows).map (serializeRow fieldnames) := by
    rw [hrows, List.map_map]
    refine List.map_congr_left ?_
    intro r hr
    exact serializeRow_normRow (hstripped r ((mem_sortByKey_iff _ _ _).mp hr))
  rw [hsortns, hser, hF]

theorem find_new_ids_zero (S : Finset ℤ) : find_new_ids 0 S = [] := by
  unfold find_new_ids
  by_cases h : S = ∅
  · rw [dif_pos h]
    rfl
  · rw [dif_neg h]
    simp [sortByKey]

theorem pipeline_zero_eq (userF accountF : Option CsvFile) (synth : ℤ → SynthData)
    {fu fa : CsvFile}
    (hu : rewrite_csv_task userF USER_FIELDS
      (read_all_data USER_FILE userF).rows = some fu)
    (ha : rewrite_csv_task accountF ACCOUNT_FIELDS
      (read_all_data ACCOUNT_FILE accountF).rows = some fa) :
    generate_and_append_datasets userF accountF 0 synth =
      some ⟨fu, fa,
        write_clean_csv CLEAN_USER_FILE CLEAN_USER_FIELDS
          (read_all_data USER_FILE userF).rows,
        write_clean_csv CLEAN_ACCOUNT_FILE CLEAN_ACCOUNT_FIELDS
          (read_all_data ACCOUNT_FILE accountF).rows,
        check_data_integrity (read_all_data USER_FILE userF).rows
          (read_all_data ACCOUNT_FILE accountF).rows,
        []⟩ := by
  simp only [generate_and_append_datasets, find_new_ids_zero, generate_new_rows,
    List.map_nil, List.append_nil]
  rw [hu, ha]

theorem pipeline_zero_inv (userF accountF : Option CsvFile) (synth : ℤ → SynthData)
    {out : PipelineOut}
    (h : generate_and_append_datasets userF accountF 0 synth = some out) :
    rewrite_csv_task userF USER_FIELDS
      (read_all_data USER_FILE userF).rows = some out.userFile ∧
    rewrite_csv_task accountF ACCOUNT_FIELDS
      (read_all_data ACCOUNT_FILE accountF).rows = some out.accountFile ∧
    out.newIds = [] := by
  simp only [generate_and_append_datasets, find_new_ids_zero, generate_new_rows,
    List.map_nil, List.append_nil] at h
  rcases hu : rewrite_csv_task userF USER_FIELDS
      (read_all_data USER_FILE userF).rows with _ | fu
  · rw [hu] at h
    cases h
  · rcases ha : rewrite_csv_task accountF ACCOUNT_FIELDS
        (read_all_data ACCOUNT_FILE accountF).rows with _ | fa
    · rw [hu, ha] at h
      cases h
    · rw [hu, ha] at h
      injection h with h
      subst h
      exact ⟨rfl, rfl, rfl⟩

/-- C6: running the pipeline a second time, with zero new records, on the
output state of a zero-record first run succeeds and reproduces the two
sorted output files byte for byte; no identifier is allocated, and the
findings are exactly the validator's verdict on the persisted first-run
state. -/
theorem pipeline_idempotent (userF accountF : Option CsvFile)
    (synth synth₂ : ℤ → SynthData) (out : PipelineOut)
    (h : generate_and_append_datasets userF accountF 0 synth = some out) :
    ∃ out₂ : PipelineOut,
      generate_and_append_datasets (some out.userFile) (some out.accountFile) 0
          synth₂ = some out₂ ∧
      out₂.userFile = out.userFile ∧
      out₂.accountFile = out.accountFile ∧
      out₂.newIds = [] ∧
      out₂.findings = check_data_integrity
        (read_all_data USER_FILE (some out.userFile)).rows
        (read_all_data ACCOUNT_FILE (some out.accountFile)).rows := by
  obtain ⟨hu, ha, -⟩ := pipeline_zero_inv userF accountF synth h
  have hu₂ := reread_rewrite userF (some out.userFile) USER_FIELDS
    (read_all_data USER_FILE userF).rows out.userFile USER_FILE
    (by decide) (by decide) (read_rows_stripped USER_FILE userF) hu
  have ha₂ := reread_rewrite accountF (some out.accountFile) ACCOUNT_FIELDS
    (read_all_data ACCOUNT_FILE accountF).rows out.accountFile ACCOUNT_FILE
    (by decide) (by decide) (read_rows_stripped ACCOUNT_FILE accountF) ha
  exact ⟨_, pipeline_zero_eq (some out.userFile) (some out.accountFile) synth₂
    hu₂ ha₂, rfl, rfl, rfl, rfl⟩

/-- Closed instance of `pipeline_idempotent` discharging its first-run
hypothesis on an empty-file run. -/
theorem pipeline_idempotent_witness :
    ∃ out₂ : PipelineOut,
      generate_and_append_datasets (some emptyRunOut.userFile)
          (some emptyRunOut.accountFile) 0 emptySynth = some out₂ ∧
      out₂.userFile = emptyRunOut.userFile ∧
      out₂.accountFile = emptyRunOut.accountFile ∧
      out₂.newIds = [] ∧
      out₂.findings = check_data_integrity
        (read_all_data USER_FILE (some emptyRunOut.userFile)).rows
        (read_all_data ACCOUNT_FILE (some emptyRunOut.accountFile)).rows :=
  pipeline_idempotent none none emptySynth emptySynth emptyRunOut (by decide)

end GenData
